import Mathlib

/-!
Verification of the rule-resolution and commit-message-assembly engine of
`git-cx` (a conventional-commits helper).  The Go source in `src/main.go`,
`src/types.go` and `src/cmd_gen.go` is shallowly embedded below: pure string
manipulation is translated to Lean functions; interactive prompting is
modelled by passing the sequence of user inputs as a list; the file system is
modelled as a partial map from paths to file models; external decoders
(yaml.v3, encoding/json) and the emoji resolver are modelled as oracles
attached to the file model / passed as function parameters, since only their
results are observable to the embedded code.
-/

namespace GitCx

/-! ### Basic string helpers mirroring the Go standard library -/

/-- The opening curly brace character. -/
def lcurly : Char := Char.ofNat 123

/-- The closing curly brace character. -/
def rcurly : Char := Char.ofNat 125

/-- Model of `unicode.IsSpace` restricted to the code points relevant here
(`strings.TrimSpace` trims these from both ends). -/
def goIsSpace (c : Char) : Bool :=
  c = ' ' || c = '\t' || c = '\n' || c = '\r' ||
  c.toNat = 11 || c.toNat = 12 || c.toNat = 0x85 || c.toNat = 0xA0

/-- Trim `goIsSpace` characters from both ends of a character list. -/
def trimCharsList (l : List Char) : List Char :=
  ((l.dropWhile goIsSpace).reverse.dropWhile goIsSpace).reverse

/-- Model of Go `strings.TrimSpace`. -/
def goTrimSpace (s : String) : String :=
  String.mk (trimCharsList s.toList)

/-- ASCII upper-casing of one character (model of `strings.ToUpper`,
restricted to ASCII as exercised by the embedded code). -/
def goUpperChar (c : Char) : Char :=
  if 97 ≤ c.toNat ∧ c.toNat ≤ 122 then Char.ofNat (c.toNat - 32) else c

/-- Model of Go `strings.ToUpper`. -/
def goToUpper (s : String) : String :=
  String.mk (s.toList.map goUpperChar)

/-- ASCII lower-casing of one character (for `strings.EqualFold` on
extensions, which are ASCII). -/
def goLowerChar (c : Char) : Char :=
  if 65 ≤ c.toNat ∧ c.toNat ≤ 90 then Char.ofNat (c.toNat + 32) else c

/-- Model of Go `strings.ToLower`. -/
def goToLower (s : String) : String :=
  String.mk (s.toList.map goLowerChar)

/-- Model of `strings.HasPrefix`. -/
def goStartsWith (s pre : String) : Bool :=
  pre.toList.isPrefixOf s.toList

/-- Model of the source helper `in(s, choices...)` (main.go:764): membership
up to `strings.EqualFold`, i.e. case-insensitive equality. -/
def inFold (s : String) (choices : List String) : Bool :=
  choices.any (fun c => goToLower s = goToLower c)

/-- Last path element (everything after the final slash). -/
def lastPathElem (s : String) : String :=
  String.mk (s.toList.foldl (fun acc c => if c = '/' then [] else acc ++ [c]) [])

/-- Suffix of a character list starting at its last dot (inclusive), if any. -/
def extFromLastDot : List Char → Option (List Char)
  | [] => none
  | c :: rest =>
    match extFromLastDot rest with
    | some e => some e
    | none => if c = '.' then some (c :: rest) else none

/-- Model of Go `filepath.Ext`: the suffix of the final path element starting
at its last dot, or the empty string when there is no dot. -/
def goExt (path : String) : String :=
  match extFromLastDot (lastPathElem path).toList with
  | some e => String.mk e
  | none => ""

/-! ### Data model (src/types.go)

The `orderedmap.OrderedMap` collaborator is modelled as an association list
with unique keys: `Get` is the first-match lookup, `Keys` the projection to
keys in insertion order. -/

/-- A commit type entry (src/types.go `CommitType`). -/
structure CommitType where
  desc : String
  emoji : String
deriving DecidableEq, Repr

/-- The ordered registry of commit types. -/
abbrev TypesMap : Type := List (String × CommitType)

/-- `OrderedMap.Get`. -/
def omGet (m : TypesMap) (k : String) : Option CommitType :=
  match m with
  | [] => none
  | (k', v) :: rest => if k' = k then some v else omGet rest k

/-- `OrderedMap.Keys`. -/
def omKeys (m : TypesMap) : List String :=
  m.map (·.1)

/-- The rule set (src/types.go `Rule`). -/
structure Rule where
  headerFormat : String
  headerFormatHint : String
  types : TypesMap
  denyEmptyType : Bool
  denyAdlibType : Bool
  useBreakingChange : Bool

/-- Inline conditional used by `defaultCommitTypes` (main.go:169). -/
def iif (cond : Bool) (t f : String) : String :=
  if cond then t else f

/-- The built-in commit type registry (main.go:168 `defaultCommitTypes`). -/
def defaultCommitTypes (emoji : Bool) : TypesMap :=
  [ ("# comment1", ⟨"comment starts with #", ""⟩),
    ("# comment2",
      ⟨"This default definition is from https://github.com/angular/angular/blob/main/CONTRIBUTING.md#-commit-message-guidelines", ""⟩),
    ("feat", ⟨"A new feature", iif emoji ":sparkles:" ""⟩),
    ("fix", ⟨"A bug fix", iif emoji ":bug:" ""⟩),
    ("docs", ⟨"Documentation only changes", iif emoji ":memo:" ""⟩),
    ("refactor",
      ⟨"A code change that neither fixes a bug nor adds a feature", iif emoji ":recycle:" ""⟩),
    ("perf", ⟨"A code change that improves performance", iif emoji ":zap:" ""⟩),
    ("test",
      ⟨"Adding missing tests or correcting existing tests", iif emoji ":test_tube:" ""⟩),
    ("build",
      ⟨"Changes that affect the build system or external dependencies", iif emoji ":package:" ""⟩),
    ("ci", ⟨"Changes to our CI configuration files and scripts", iif emoji ":hammer:" ""⟩),
    ("revert", ⟨"Reverts a previous commit", iif emoji ":rewind:" ""⟩) ]

/-- The built-in default rule set (main.go:157 `defaultRule`).  The literal
braces of the header template are written with hexadecimal escapes. -/
def defaultRule (emoji : Bool) : Rule :=
  { headerFormat :=
      "\x7b\x7b.type\x7d\x7d\x7b\x7b.scope_with_parens\x7d\x7d\x7b\x7b.bang\x7d\x7d: \x7b\x7b.emoji_unicode\x7d\x7d\x7b\x7b.description\x7d\x7d"
    headerFormatHint :=
      ".type, .scope, .scope_with_parens, .bang(if BREAKING CHANGE), .emoji, .emoji_unicode, .description"
    types := defaultCommitTypes emoji
    denyEmptyType := false
    denyAdlibType := false
    useBreakingChange := false }

/-- `emojiOf` (main.go:678): look the type up in the registry; when asked for
the unicode form, resolve the shortcode through the external emoji resolver
`emojize` and trim surrounding whitespace.  Absent types yield `""`. -/
def emojiOf (rule : Rule) (emojize : String → String) (typ : String)
    (doEmojize : Bool) : String :=
  match omGet rule.types typ with
  | some ct => if doEmojize then goTrimSpace (emojize ct.emoji) else ct.emoji
  | none => ""

/-! ### Template engine (model of the `text/template` collaborator)

`buildupCommitMessage` (main.go:454) renders the header through Go's
`text/template`, restricted by the spec to flat named-field substitution.
The collaborator is modelled here faithfully for that fragment:

* a template is literal text interleaved with `\x7b\x7b...\x7d\x7d` actions;
* a supported action is a field reference `.name` or an include directive
  `template "name"` — the latter parses but always fails at execution time
  because no named templates are ever registered by the program;
* an unterminated action is a parse error (`template.Must` then panics,
  modelled as `Except.error`);
* execution writes output left to right and stops at the first failing
  action, leaving the partial output in the buffer, exactly as a
  `bytes.Buffer` passed to `Template.Execute` retains partial results;
* a field absent from the data map renders as the zero value `""`
  (the data is a `map[string]string`). -/

/-- One parsed template node. -/
inductive TmplItem where
  | lit : String → TmplItem
  | field : String → TmplItem
  | tmplRef : String → TmplItem
deriving DecidableEq, Repr

/-- Characters permitted in a field name. -/
def isFieldChar (c : Char) : Bool :=
  c.isAlpha || c.isDigit || c = '_'

/-- Accumulate a double-quoted name until the closing quote; nothing may
follow the closing quote. -/
def parseQuotedNameBody (acc : List Char) : List Char → Option String
  | [] => none
  | c :: rest =>
    if c = '"' then
      match rest with
      | [] => some (String.mk acc.reverse)
      | _ :: _ => none
    else parseQuotedNameBody (c :: acc) rest

/-- Parse the double-quoted name argument of an include directive:
a leading quote, the name, a trailing quote, nothing after. -/
def parseQuotedName : List Char → Option String
  | [] => none
  | c :: rest =>
    if c = '"' then parseQuotedNameBody [] rest else none

/-- Parse the body of one `\x7b\x7b...\x7d\x7d` action. -/
def parseActionBody (body : List Char) : Except String TmplItem :=
  let t := trimCharsList body
  match t with
  | [] => Except.error "empty action"
  | c :: rest =>
    if c = '.' then
      if rest ≠ [] ∧ rest.all isFieldChar then
        Except.ok (TmplItem.field (String.mk rest))
      else Except.error "bad field reference"
    else
      if "template".toList.isPrefixOf t then
        match parseQuotedName (trimCharsList (t.drop 8)) with
        | some name => Except.ok (TmplItem.tmplRef name)
        | none => Except.error "bad include directive"
      else Except.error "unrecognized action"

/-- Lexer mode of the template parser. -/
inductive PMode where
  | text : PMode
  | brace1 : PMode
  | action : List Char → PMode
  | actionR : List Char → PMode
deriving DecidableEq

/-- Parser state: parsed items (reversed), pending literal (reversed),
mode, and the first error if any. -/
structure PState where
  items : List TmplItem
  litAcc : List Char
  mode : PMode
  err : Option String
deriving DecidableEq

/-- Flush a pending (reversed) literal accumulator onto an item stack. -/
def flushLitRev (litAccRev : List Char) (items : List TmplItem) : List TmplItem :=
  if litAccRev.isEmpty then items
  else TmplItem.lit (String.mk litAccRev.reverse) :: items

/-- One step of the template lexer/parser. -/
def stepTmpl (st : PState) (c : Char) : PState :=
  if st.err.isSome then st
  else
    match st.mode with
    | PMode.text =>
      if c = lcurly then { st with mode := PMode.brace1 }
      else { st with litAcc := c :: st.litAcc }
    | PMode.brace1 =>
      if c = lcurly then
        { st with items := flushLitRev st.litAcc st.items, litAcc := [],
                  mode := PMode.action [] }
      else { st with litAcc := c :: lcurly :: st.litAcc, mode := PMode.text }
    | PMode.action acc =>
      if c = rcurly then { st with mode := PMode.actionR acc }
      else { st with mode := PMode.action (c :: acc) }
    | PMode.actionR acc =>
      if c = rcurly then
        match parseActionBody acc.reverse with
        | Except.error e => { st with err := some e }
        | Except.ok item =>
          { st with items := item :: st.items, mode := PMode.text }
      else { st with mode := PMode.action (c :: rcurly :: acc) }

/-- Parse a whole template string.  `Except.error` models a parse error
(on which `template.Must` panics, crashing the program). -/
def parseTmpl (s : String) : Except String (List TmplItem) :=
  let st := s.toList.foldl stepTmpl ⟨[], [], PMode.text, none⟩
  match st.err with
  | some e => Except.error e
  | none =>
    match st.mode with
    | PMode.text => Except.ok (flushLitRev st.litAcc st.items).reverse
    | PMode.brace1 => Except.ok (flushLitRev (lcurly :: st.litAcc) st.items).reverse
    | PMode.action _ => Except.error "unclosed action"
    | PMode.actionR _ => Except.error "unclosed action"

/-- Execute parsed template items against a flat string map, returning the
output produced so far together with the error that stopped execution, if
any (partial output stays in the buffer, as with `bytes.Buffer`). -/
def execTmpl (fields : List (String × String)) : List TmplItem → String × Option String
  | [] => ("", none)
  | TmplItem.lit s :: rest =>
    let r := execTmpl fields rest
    (s ++ r.1, r.2)
  | TmplItem.field n :: rest =>
    let r := execTmpl fields rest
    (((fields.lookup n).getD "") ++ r.1, r.2)
  | TmplItem.tmplRef n :: _ =>
    ("", some ("template " ++ n ++ " not defined"))

/-! ### Header rendering and message assembly (main.go:454-499) -/

/-- `scopeWithParens` local of `buildupCommitMessage` (main.go:459-462). -/
def scopeWithParensOf (scope : String) : String :=
  if scope ≠ "" then "(" ++ scope ++ ")" else ""

/-- `bang` local of `buildupCommitMessage` (main.go:464-467). -/
def bangOf (breakingChange : String) : String :=
  if breakingChange ≠ "" then "!" else ""

/-- The seven-field data map handed to `Template.Execute` (main.go:471-479). -/
def headerFieldsMap (typ scope scopeWithParens bang emoji emojiUnicode desc :
    String) : List (String × String) :=
  [ ("type", typ), ("scope", scope), ("scope_with_parens", scopeWithParens),
    ("bang", bang), ("emoji", emoji), ("emoji_unicode", emojiUnicode),
    ("description", desc) ]

/-- The header block of `buildupCommitMessage` (main.go:454-489).  On a
template parse error `template.Must` panics (`Except.error`).  On an
execution error a diagnostic line is emitted to stderr (second component)
and the fixed fallback text is appended to whatever partial output the
failed execution left in the buffer. -/
def renderHeader (headerFormat typ scope emoji emojiUnicode desc
    breakingChange : String) : Except String (String × List String) :=
  let scopeWithParens := scopeWithParensOf scope
  let bang := bangOf breakingChange
  match parseTmpl headerFormat with
  | Except.error e => Except.error e
  | Except.ok items =>
    let r := execTmpl
      (headerFieldsMap typ scope scopeWithParens bang emoji emojiUnicode desc)
      items
    match r.2 with
    | none => Except.ok (r.1, [])
    | some e =>
      Except.ok (r.1 ++ typ ++ scopeWithParens ++ bang ++ ": " ++ desc,
        [e ++ ": " ++ headerFormat])

/-- `promptBreakingChange` (main.go:660-676): the prompt is shown only when
`useBreakingChange` is set, and its answer is trimmed. -/
def promptBreakingChange (useBreakingChange : Bool) (input : String) : String :=
  if useBreakingChange then goTrimSpace input else ""

/-- The message-assembly tail of `buildupCommitMessage` (main.go:452-499),
as a function of the prompted type/scope/description/body values and the raw
breaking-change answer.  Returns the final message and the diagnostics
emitted while rendering the header; `Except.error` is the
`template.Must` panic. -/
def assembleMessage (rule : Rule) (emojize : String → String)
    (typ scope desc body bcRaw : String) :
    Except String (String × List String) :=
  let breakingChange := promptBreakingChange rule.useBreakingChange bcRaw
  let emoji := emojiOf rule emojize typ false
  let emojiUnicode := emojiOf rule emojize typ true
  match renderHeader rule.headerFormat typ scope emoji emojiUnicode desc
      breakingChange with
  | Except.error e => Except.error e
  | Except.ok hd =>
    let msg := hd.1
    let msg := if body ≠ "" then msg ++ "\n\n" ++ body else msg
    let msg := if breakingChange ≠ "" then
        msg ++ "\nBREAKING CHANGE: " ++ breakingChange
      else msg
    Except.ok (msg, hd.2)

/-! ### Type selection (main.go:502-547) -/

/-- A completion suggestion (go-prompt `Suggest`). -/
structure Suggest where
  text : String
  description : String
deriving DecidableEq, Repr

/-- The suggestion list built at the top of `promptType` (main.go:505-522):
comment keys (prefix `#`) and keys with an empty description are skipped. -/
def suggestionItems (rule : Rule) (emojize : String → String) : List Suggest :=
  (omKeys rule.types).filterMap (fun k =>
    if goStartsWith k "#" then none
    else
      match omGet rule.types k with
      | none => none
      | some ct =>
        if ct.desc = "" then none
        else some ⟨k, emojiOf rule emojize k true ++ " " ++ ct.desc⟩)

/-- The `for typ == ""` validation loop of `promptType` (main.go:532-546),
driven by the scripted list of user answers; `none` means the script ran out
while the loop was still re-prompting. -/
def promptTypeLoop (rule : Rule) : List String → Option String
  | [] => none
  | input :: rest =>
    let typ := input
    let typ :=
      if typ ≠ "" ∧ rule.denyAdlibType ∧ (omGet rule.types typ).isNone
      then "" else typ
    if typ = "" then promptTypeLoop rule rest else some typ

/-- The acceptance predicate the loop actually implements: non-empty, and
present in the registry whenever `denyAdlibType` is set. -/
def acceptableType (rule : Rule) (input : String) : Bool :=
  input ≠ "" && (!rule.denyAdlibType || (omGet rule.types input).isSome)

/-! ### Body collection (main.go:604-636) -/

/-- The accumulation loop of `promptBody`: each raw line is trimmed; a blank
line following a blank line terminates; every processed line (including a
first blank) is appended, separated by a newline once the body is
non-empty. -/
def promptBodyAux (body : String) (prevEmpty : Bool) : List String → String
  | [] => body
  | l :: rest =>
    let line := goTrimSpace l
    if line = "" then
      if prevEmpty then body
      else promptBodyAux (if body ≠ "" then body ++ "\n" ++ line else body ++ line)
        true rest
    else promptBodyAux (if body ≠ "" then body ++ "\n" ++ line else body ++ line)
      false rest

/-- `promptBody` (main.go:604-636) over the scripted list of input lines
(end of list models end of input). -/
def promptBody (lines : List String) : String :=
  promptBodyAux "" false lines

/-- The trimmed lines that the loop appends before terminating: stops before
the second of two consecutive blank lines (the first blank is kept). -/
def bodyLinesTaken (prevEmpty : Bool) : List String → List String
  | [] => []
  | l :: rest =>
    let line := goTrimSpace l
    if line = "" then
      if prevEmpty then []
      else line :: bodyLinesTaken true rest
    else line :: bodyLinesTaken false rest

/-- Join a list of already-separated tail lines, each preceded by a newline. -/
def sepJoin : List String → String
  | [] => ""
  | l :: t => "\n" ++ l ++ sepJoin t

/-- The newline-join of a list of lines. -/
def newlineJoin : List String → String
  | [] => ""
  | l :: t => l ++ sepJoin t

/-! ### Completion filtering (main.go:639-658, 690-711) -/

/-- `fuzzyMatch` (main.go:639-658), the greedy subsequence scan, phrased as
simultaneous recursion over the candidate text and the query: on a character
match both advance, otherwise only the candidate text advances. -/
def fuzzyMatchAux : List Char → List Char → Bool
  | _, [] => true
  | [], _ :: _ => false
  | x :: s, c :: t =>
    if x = c then fuzzyMatchAux s t else fuzzyMatchAux s (c :: t)

/-- `fuzzyMatch(s, sub)` (main.go:639). -/
def fuzzyMatch (s sub : String) : Bool :=
  fuzzyMatchAux s.toList sub.toList

/-- `filterSuggestions` (main.go:690-711). -/
def filterSuggestions (suggestions : List Suggest) (sub : String)
    (ignoreCase : Bool) (fn : String → String → Bool) : List Suggest :=
  if sub = "" then suggestions
  else
    let sub := if ignoreCase then goToUpper sub else sub
    suggestions.filter (fun s =>
      let c := if ignoreCase then goToUpper s.text else s.text
      let d := if ignoreCase then goToUpper s.description else s.description
      fn c sub || fn d sub)

/-! ### Scope history update and persistence (main.go:413-450)

`Scopes` (src/types.go) is `map[string]time.Time`; the Go map is modelled as
an association list with unique keys and timestamps as naturals
(`time.Time.After` is strict `>`).  The Go code collects the map's entries,
sorts them with `sort.Slice` under the comparator `ts.After`, and writes the
resulting ordered map out; any correct (not necessarily stable) sort for
that comparator is a faithful model, `List.insertionSort` is used here. -/

/-- A scope-history map: scope name to last-used timestamp. -/
abbrev ScopesList : Type := List (String × Nat)

/-- Go map assignment `c.scopes[scope] = now` (main.go:414): overwrite the
entry when the key is present, append it otherwise. -/
def scopesSetNow (scopes : ScopesList) (scope : String) (now : Nat) : ScopesList :=
  let l : List (String × Nat) := scopes
  if (l.lookup scope).isSome then
    l.map (fun p => if p.1 = scope then (scope, now) else p)
  else l ++ [(scope, now)]

/-- The ordering used by `sort.Slice` (main.go:427-429): entry `a` precedes
entry `b` when `a.ts.After(b.ts)` or they are tied, i.e. `b.2 ≤ a.2`. -/
def scopeOrder (a b : String × Nat) : Prop :=
  b.2 ≤ a.2

instance : DecidableRel scopeOrder := fun a b => Nat.decLe b.2 a.2

instance : IsTotal (String × Nat) scopeOrder :=
  ⟨fun a b => le_total b.2 a.2⟩

instance : IsTrans (String × Nat) scopeOrder :=
  ⟨fun _ _ _ h1 h2 => le_trans h2 h1⟩

/-- The descending-by-timestamp sort of the scope entries (main.go:420-434). -/
def sortScopesDesc (l : ScopesList) : ScopesList :=
  List.insertionSort scopeOrder l

/-- The ordered list of `(scope, timestamp)` pairs written back by
`buildupCommitMessage` after recording `scope` at time `now`
(main.go:413-441); the YAML/JSON marshaller serializes an ordered map in
exactly this order. -/
def persistedScopes (scopes : ScopesList) (scope : String) (now : Nat) :
    ScopesList :=
  sortScopesDesc (scopesSetNow scopes scope now)

/-- The write-back guard of `buildupCommitMessage` (main.go:413, 443): the
file at `scopesFileName` is overwritten exactly when the chosen scope and
the recorded file name are both non-empty. -/
def writeBackTarget (scopesFileName scope : String) : Option String :=
  if scope ≠ "" ∧ scopesFileName ≠ "" then some scopesFileName else none

/-! ### Config resolution (main.go:225-402)

The file system is a partial map from paths to file models.  The external
decoders (yaml.v3 / encoding/json) are oracles attached to each file: the
`yaml`/`json` fields hold the value the respective `Unmarshal` produces, or
`none` when it fails.  `os.Stat` failure is a missing path; `Except.error`
models a non-nil Go error. -/

/-- A file as seen by `tryReadRuleFile` / `tryReadScopesFile`. -/
structure MFile (α : Type) where
  isDir : Bool
  yaml : Option α
  json : Option α

/-- `tryReadRuleFile` (main.go:266-305).  Mirrors the Go control flow: stat
failure is an error; an existing directory returns `(nil, nil)` — success
with no value; a `.yaml`/`.yml` extension decodes only as YAML, `.json`
only as JSON; otherwise YAML is attempted first and JSON second, and only
when both fail is the file unreadable. -/
def tryReadRuleFile (fs : String → Option (MFile Rule)) (filename : String) :
    Except Unit (Option Rule) :=
  match fs filename with
  | none => Except.error ()
  | some f =>
    if f.isDir then Except.ok none
    else if inFold (goExt filename) [".yaml", ".yml"] then
      match f.yaml with
      | some r => Except.ok (some r)
      | none => Except.error ()
    else if inFold (goExt filename) [".json"] then
      match f.json with
      | some r => Except.ok (some r)
      | none => Except.error ()
    else
      match f.yaml with
      | some r => Except.ok (some r)
      | none =>
        match f.json with
        | some r => Except.ok (some r)
        | none => Except.error ()

/-- `tryReadScopesFile` (main.go:341-378), same dispatch for the scope
history. -/
def tryReadScopesFile (fs : String → Option (MFile ScopesList))
    (filename : String) : Except Unit (Option ScopesList) :=
  match fs filename with
  | none => Except.error ()
  | some f =>
    if f.isDir then Except.ok none
    else if inFold (goExt filename) [".yaml", ".yml"] then
      match f.yaml with
      | some sc => Except.ok (some sc)
      | none => Except.error ()
    else if inFold (goExt filename) [".json"] then
      match f.json with
      | some sc => Except.ok (some sc)
      | none => Except.error ()
    else
      match f.yaml with
      | some sc => Except.ok (some sc)
      | none =>
        match f.json with
        | some sc => Except.ok (some sc)
        | none => Except.error ()

/-- The claim-side dispatch rule of §4.1 of the spec, for comparison with
the two functions above: the matched extension selects its decoder
exclusively; with no recognized extension the structured format (YAML) is
probed first and JSON second. -/
def decodeByExt {α : Type} (ext : String) (yaml json : Option α) : Option α :=
  if inFold ext [".yaml", ".yml"] then yaml
  else if inFold ext [".json"] then json
  else yaml <|> json

/-- `defaultRuleFileName` (main.go:33). -/
def defaultRuleFileName : String := ".cx"

/-- `defaultScopesFileName` (main.go:34). -/
def defaultScopesFileName : String := ".scope-history"

/-- The inputs of the `findcfg` search: the gitconfig override path
(`exactPath`, `""` when the `[cx]` key is unset or the repository root is
unknown) and the three directory tiers. -/
structure FinderEnv where
  exactPath : String
  rootDir : String
  userConfigDir : String
  exeDir : String

/-- Modelled from the spec: the `findcfg` collaborator (not under src/)
enumerates candidate paths tier by tier — the explicit override path, then
the fixed name with each registered extension (`.yaml`, `.yml`, `.json`)
under the repository root, the per-user config directory, and the
executable's directory. -/
def finderCandidates (env : FinderEnv) (name : String) : List String :=
  (if env.exactPath ≠ "" then [env.exactPath] else []) ++
  (if env.rootDir ≠ "" then
    [ env.rootDir ++ "/" ++ name ++ ".yaml",
      env.rootDir ++ "/" ++ name ++ ".yml",
      env.rootDir ++ "/" ++ name ++ ".json" ] else []) ++
  (if env.userConfigDir ≠ "" then
    [ env.userConfigDir ++ "/git-cx/" ++ name ++ ".yaml",
      env.userConfigDir ++ "/git-cx/" ++ name ++ ".yml",
      env.userConfigDir ++ "/git-cx/" ++ name ++ ".json" ] else []) ++
  (if env.exeDir ≠ "" then
    [ env.exeDir ++ "/" ++ name ++ ".yaml",
      env.exeDir ++ "/" ++ name ++ ".yml",
      env.exeDir ++ "/" ++ name ++ ".json" ] else [])

/-- Modelled from the spec: `finder.Find()` returns the first candidate path
at which an existing non-directory file sits, `none` when there is none. -/
def finderFind {α : Type} (fs : String → Option (MFile α)) (env : FinderEnv)
    (name : String) : Option String :=
  (finderCandidates env name).find? (fun p =>
    match fs p with
    | some f => !f.isDir
    | none => false)

/-- Modelled from the spec: `finder.FallbackPath()` is a display-only path
naming the lowest-priority tier's expected location. -/
def fallbackPath (env : FinderEnv) (name : String) : String :=
  env.exeDir ++ "/" ++ name ++ ".yaml"

/-- `readRuleFile` (main.go:225-257): the first found file that reads
cleanly wins, returned together with its own path; otherwise the built-in
default rule with the fallback path. -/
def readRuleFile (fs : String → Option (MFile Rule)) (env : FinderEnv) :
    Option Rule × String :=
  match finderFind fs env defaultRuleFileName with
  | some path =>
    match tryReadRuleFile fs path with
    | Except.ok r => (r, path)
    | Except.error _ =>
      (some (defaultRule false), fallbackPath env defaultRuleFileName)
  | none => (some (defaultRule false), fallbackPath env defaultRuleFileName)

/-- `readScopesFile` (main.go:307-339): when the finder locates a readable
history file the function returns it together with `exactPath` — the
gitconfig override path, NOT the path the file was found at; otherwise no
history and the fallback path. -/
def readScopesFile (fs : String → Option (MFile ScopesList)) (env : FinderEnv) :
    Option ScopesList × String :=
  match finderFind fs env defaultScopesFileName with
  | some path =>
    match tryReadScopesFile fs path with
    | Except.ok sc => (sc, env.exactPath)
    | Except.error _ => (none, fallbackPath env defaultScopesFileName)
  | none => (none, fallbackPath env defaultScopesFileName)

/-- The body loop is the fold of the line-append step over the taken lines. -/
def joinFrom (body : String) (ls : List String) : String :=
  ls.foldl (fun b l => if b ≠ "" then b ++ "\n" ++ l else b ++ l) body

/-- A file system holding one readable scope-history file at the repository
root and no gitconfig override. -/
def scopesFsRootOnly : String → Option (MFile ScopesList) := fun p =>
  if p = "/repo/.scope-history.yaml" then
    some ⟨false, some [("ui", 5)], none⟩
  else none

/-- A finder environment with no gitconfig override. -/
def envNoOverride : FinderEnv := ⟨"", "/repo", "/cfg", "/exe"⟩

/-- A file system holding one readable scope-history file at the gitconfig
override path. -/
def scopesFsOverride : String → Option (MFile ScopesList) := fun p =>
  if p = "/repo/custom.yaml" then some ⟨false, some [("api", 9)], none⟩
  else none

/-- A finder environment whose gitconfig override names the custom path. -/
def envOverride : FinderEnv := ⟨"/repo/custom.yaml", "/repo", "", ""⟩

/-- A file system with a rule file at the repository root whose YAML decode
succeeds. -/
def rulesFsRoot : String → Option (MFile Rule) := fun p =>
  if p = "/repo/.cx.yaml" then some ⟨false, some (defaultRule true), none⟩
  else none

/-- A scopes-file system aligned with `rulesFsRoot` for the C8 witness. -/
def scopesFsJson : String → Option (MFile ScopesList) := fun p =>
  if p = "/repo/.cx.yaml" then some ⟨false, some [("db", 2)], some [("db", 3)]⟩
  else none

/-- A rule-file system whose only file fails both decoders. -/
def rulesFsBroken : String → Option (MFile Rule) := fun p =>
  if p = "/repo/.cx.yaml" then some ⟨false, none, none⟩
  else none

/-! ### Auxiliary lemmas -/

/-- Appending on the right preserves non-emptiness of a string. -/
lemma append_ne_empty_left {b : String} (x : String) (h : b ≠ "") :
    b ++ x ≠ "" := by
  intro he
  apply h
  apply String.ext
  have hd : (b ++ x).data = b.data ++ x.data := String.data_append b x
  have : b.data ++ x.data = [] := by rw [← hd, he]
  rcases List.append_eq_nil.mp this with ⟨h1, _⟩
  simp [h1]

/-- A successful association-list lookup locates a member pair. -/
lemma lookup_mem {l : List (String × Nat)} {k : String} {v : Nat}
    (h : l.lookup k = some v) : (k, v) ∈ l := by
  induction l with
  | nil => simp [List.lookup] at h
  | cons p rest ih =>
    rw [List.lookup_cons] at h
    cases hk : k == p.1 with
    | true =>
      rw [hk] at h
      cases h
      have hkp : k = p.1 := by simpa using hk
      have : (k, p.2) = p := by
        cases p
        simp_all
      rw [this]
      exact List.mem_cons_self _ _
    | false =>
      rw [hk] at h
      exact List.mem_cons_of_mem _ (ih h)

/-- The greedy scan of `fuzzyMatch` succeeds exactly on subsequences. -/
lemma fuzzyMatchAux_iff : ∀ s t : List Char,
    fuzzyMatchAux s t = true ↔ List.Sublist t s := by
  intro s
  induction s with
  | nil =>
    intro t
    cases t with
    | nil => simp [fuzzyMatchAux]
    | cons c t => simp [fuzzyMatchAux]
  | cons x s ih =>
    intro t
    cases t with
    | nil => simp [fuzzyMatchAux]
    | cons c t' =>
      by_cases hxc : x = c
      · subst hxc
        rw [show fuzzyMatchAux (x :: s) (x :: t') = fuzzyMatchAux s t' by
          simp [fuzzyMatchAux]]
        rw [ih t']
        exact (List.cons_sublist_cons).symm
      · rw [show fuzzyMatchAux (x :: s) (c :: t') = fuzzyMatchAux s (c :: t') by
          simp [fuzzyMatchAux, hxc]]
        rw [ih (c :: t')]
        constructor
        · intro h
          exact h.cons x
        · intro h
          cases h with
          | cons _ h => exact h
          | cons₂ => exact absurd rfl hxc

/-- `fuzzyMatch` as a decision procedure for the subsequence relation. -/
lemma fuzzyMatch_eq_decide (s sub : String) :
    fuzzyMatch s sub = decide (List.Sublist sub.toList s.toList) := by
  by_cases h : List.Sublist sub.toList s.toList
  · rw [decide_eq_true h]
    exact (fuzzyMatchAux_iff s.toList sub.toList).mpr h
  · rw [decide_eq_false h]
    rw [Bool.eq_false_iff]
    intro ht
    exact h ((fuzzyMatchAux_iff s.toList sub.toList).mp ht)


lemma promptBodyAux_eq_joinFrom : ∀ (lines : List String) (body : String)
    (pe : Bool), promptBodyAux body pe lines = joinFrom body (bodyLinesTaken pe lines) := by
  intro lines
  induction lines with
  | nil => intro body pe; rfl
  | cons l rest ih =>
    intro body pe
    by_cases h0 : goTrimSpace l = ""
    · cases pe with
      | true => simp [promptBodyAux, bodyLinesTaken, h0, joinFrom]
      | false => simp [promptBodyAux, bodyLinesTaken, h0, joinFrom, ih]
    · simp [promptBodyAux, bodyLinesTaken, h0, joinFrom, ih]

lemma joinFrom_nonempty : ∀ (ls : List String) (b : String), b ≠ "" →
    joinFrom b ls = b ++ sepJoin ls := by
  intro ls
  induction ls with
  | nil => intro b _; simp [joinFrom, sepJoin]
  | cons x t ih =>
    intro b hb
    rw [show joinFrom b (x :: t) = joinFrom (b ++ "\n" ++ x) t by
      simp [joinFrom, List.foldl_cons, hb]]
    rw [ih _ (append_ne_empty_left x (append_ne_empty_left "\n" hb))]
    rw [sepJoin]
    simp [String.append_assoc]

lemma joinFrom_empty : ∀ ls : List String,
    joinFrom "" ls = newlineJoin (ls.dropWhile (· = "")) := by
  intro ls
  induction ls with
  | nil => rfl
  | cons x t ih =>
    by_cases hx : x = ""
    · subst hx
      rw [show joinFrom "" ("" :: t) = joinFrom "" t by
        simp [joinFrom, List.foldl_cons]]
      rw [ih]
      rw [show ("" :: t).dropWhile (· = "") = t.dropWhile (· = "") by
        simp [List.dropWhile]]
    · rw [show joinFrom "" (x :: t) = joinFrom x t by
        simp [joinFrom, List.foldl_cons, String.empty_append]]
      rw [joinFrom_nonempty t x hx]
      rw [show (x :: t).dropWhile (· = "") = x :: t by
        simp [List.dropWhile, hx]]
      rfl

/-! ### Claims -/

/-- C3 counterexample: with the built-in default rule (`denyEmptyType =
false`) an empty input is NOT accepted as the chosen type — the
`for typ == ""` loop re-prompts — contradicting the claim that an empty
input is rejected only when `denyEmptyType` is set. -/
theorem c3_counterexample :
    (defaultRule false).denyEmptyType = false ∧
    promptTypeLoop (defaultRule false) [""] = none := by
  exact ⟨rfl, rfl⟩

/-- C3 (amended): the type-selection loop accepts exactly the first scripted
input that is non-empty and, when `denyAdlibType` is set, present as a key
of the registry; an empty input is always rejected and re-prompted,
`denyEmptyType` controlling only the diagnostic. -/
theorem c3_type_loop (rule : Rule) (inputs : List String) :
    promptTypeLoop rule inputs = inputs.find? (acceptableType rule) := by
  induction inputs with
  | nil => rfl
  | cons i rest ih =>
    by_cases hi : i = ""
    · subst hi
      rw [show promptTypeLoop rule ("" :: rest) = promptTypeLoop rule rest by
        simp [promptTypeLoop]]
      rw [ih]
      rw [List.find?_cons_of_neg]
      simp [acceptableType]
    · by_cases hd : rule.denyAdlibType = true
      · by_cases hn : (omGet rule.types i).isNone = true
        · rw [show promptTypeLoop rule (i :: rest) = promptTypeLoop rule rest by
            simp [promptTypeLoop, hi, hd, hn]]
          rw [ih]
          rw [List.find?_cons_of_neg]
          simp only [acceptableType, hd]
          simp [Option.isNone_iff_eq_none.mp hn]
        · rw [show promptTypeLoop rule (i :: rest) = some i by
            simp [promptTypeLoop, hi, hd, hn]]
          rw [List.find?_cons_of_pos]
          have hs : (omGet rule.types i).isSome = true := by
            cases hoc : omGet rule.types i with
            | none => simp [hoc] at hn
            | some ct => simp
          simp [acceptableType, hi, hd, hs]
      · rw [show promptTypeLoop rule (i :: rest) = some i by
          simp [promptTypeLoop, hi, hd]]
        rw [List.find?_cons_of_pos]
        simp [acceptableType, hi, hd]

/-- C6 counterexample: on the input script `["a", "", ""]` the loop stores
`"a\n"` — the first of the two terminating blank lines IS included (the
`continue` in the source is commented out) — not the claimed `"a"`. -/
theorem c6_counterexample :
    promptBody ["a", "", ""] = "a" ++ "\n" ∧ promptBody ["a", "", ""] ≠ "a" := by
  exact ⟨rfl, by decide⟩

/-- C6 (amended): body collection stops at the first occurrence of two
consecutive blank lines (or end of input); a non-blank line resets the
consecutive-blank counter; the stored body is the newline-join of the
trimmed lines appended before termination — which include the FIRST of the
two terminating blank lines but not the second — after discarding leading
blank lines (they merge into the initially empty body). -/
theorem c6_body_join (lines : List String) :
    promptBody lines =
      newlineJoin ((bodyLinesTaken false lines).dropWhile (· = "")) := by
  rw [show promptBody lines = promptBodyAux "" false lines from rfl]
  rw [promptBodyAux_eq_joinFrom]
  exact joinFrom_empty _

/-- C7: the fuzzy filter keeps a candidate exactly when every character of
the query appears, case-insensitively and in order (not necessarily
contiguously), in the candidate's key or in its description — i.e. the
upper-cased query is a subsequence of the upper-cased key or of the
upper-cased description; in particular the query `"bg"` keeps the candidate
(`"fix"`, `"A bug fix"`) and drops (`"feat"`, `"A new feature"`). -/
theorem c7_fuzzy_filter :
    (∀ (suggestions : List Suggest) (sub : String),
      filterSuggestions suggestions sub true fuzzyMatch =
        suggestions.filter (fun s =>
          decide (List.Sublist (goToUpper sub).toList (goToUpper s.text).toList) ||
          decide (List.Sublist (goToUpper sub).toList
            (goToUpper s.description).toList))) ∧
    filterSuggestions [⟨"fix", "A bug fix"⟩, ⟨"feat", "A new feature"⟩]
      "bg" true fuzzyMatch = [⟨"fix", "A bug fix"⟩] := by
  constructor
  · intro suggestions sub
    by_cases hs : sub = ""
    · subst hs
      rw [show filterSuggestions suggestions "" true fuzzyMatch = suggestions
        from rfl]
      have : ∀ s : Suggest,
          (decide (List.Sublist (goToUpper "").toList (goToUpper s.text).toList) ||
           decide (List.Sublist (goToUpper "").toList
             (goToUpper s.description).toList)) = true := by
        intro s
        have h1 : (goToUpper "").toList = [] := rfl
        rw [h1]
        simp [List.nil_sublist]
      rw [List.filter_congr (fun a _ => this a)]
      simp
    · rw [show filterSuggestions suggestions sub true fuzzyMatch =
        suggestions.filter (fun s =>
          fuzzyMatch (goToUpper s.text) (goToUpper sub) ||
          fuzzyMatch (goToUpper s.description) (goToUpper sub)) by
          simp [filterSuggestions, hs]]
      apply List.filter_congr
      intro a _
      rw [fuzzyMatch_eq_decide, fuzzyMatch_eq_decide]
  · rfl

/-- C9: for every candidate suggestion list, query and matching predicate,
filtering returns a sublist of the input — kept candidates appear in their
original relative order, none duplicated or reordered. -/
theorem c9_filter_sublist (suggestions : List Suggest) (sub : String)
    (ignoreCase : Bool) (fn : String → String → Bool) :
    List.Sublist (filterSuggestions suggestions sub ignoreCase fn) suggestions := by
  by_cases hs : sub = ""
  · subst hs
    rw [show filterSuggestions suggestions "" ignoreCase fn = suggestions
      from rfl]
  · rw [show filterSuggestions suggestions sub ignoreCase fn =
      suggestions.filter (fun s =>
        fn (if ignoreCase = true then goToUpper s.text else s.text)
          (if ignoreCase = true then goToUpper sub else sub) ||
        fn (if ignoreCase = true then goToUpper s.description else s.description)
          (if ignoreCase = true then goToUpper sub else sub)) by
      simp [filterSuggestions, hs]]
    exact List.filter_sublist _

/-- After recording `scope` at `now`, every entry of the updated map is
either the fresh `(scope, now)` pair or an untouched original entry. -/
lemma mem_scopesSetNow {scopes : ScopesList} {scope : String} {now : Nat}
    {q : String × Nat} (hq : q ∈ scopesSetNow scopes scope now) :
    q = (scope, now) ∨ q ∈ (scopes : List (String × Nat)) := by
  unfold scopesSetNow at hq
  by_cases hl : (((scopes : List (String × Nat)).lookup scope)).isSome = true
  · rw [if_pos hl] at hq
    rcases List.mem_map.mp hq with ⟨p, hp, hpq⟩
    by_cases hps : p.1 = scope
    · left
      rw [← hpq]
      simp [hps]
    · right
      rw [← hpq]
      simpa [hps] using hp
  · rw [if_neg hl] at hq
    rcases List.mem_append.mp hq with h | h
    · right; exact h
    · left; simpa using h

/-- The fresh pair is always present in the updated map. -/
lemma scopesSetNow_self_mem (scopes : ScopesList) (scope : String) (now : Nat) :
    (scope, now) ∈ scopesSetNow scopes scope now := by
  unfold scopesSetNow
  by_cases hl : (((scopes : List (String × Nat)).lookup scope)).isSome = true
  · rw [if_pos hl]
    rcases Option.isSome_iff_exists.mp hl with ⟨v, hv⟩
    have hm : (scope, v) ∈ (scopes : List (String × Nat)) := lookup_mem hv
    refine List.mem_map.mpr ⟨(scope, v), hm, ?_⟩
    simp
  · rw [if_neg hl]
    exact List.mem_append_right _ (List.mem_singleton.mpr rfl)

/-- C4: for every scope-history map and non-empty chosen scope, the
persisted entry list is in descending timestamp order, and when the
recording time is strictly later than every existing entry's timestamp the
recorded scope appears first. -/
theorem c4_scope_persist_order (scopes : ScopesList) (scope : String)
    (now : Nat) (hscope : scope ≠ "") :
    (persistedScopes scopes scope now).Sorted scopeOrder ∧
    ((∀ p ∈ (scopes : List (String × Nat)), p.2 < now) →
      (persistedScopes scopes scope now).head? = some (scope, now)) := by
  constructor
  · exact List.sorted_insertionSort scopeOrder _
  · intro hlt
    have hsorted : (persistedScopes scopes scope now).Sorted scopeOrder :=
      List.sorted_insertionSort scopeOrder _
    have hmem : (scope, now) ∈ persistedScopes scopes scope now := by
      unfold persistedScopes sortScopesDesc
      exact (List.mem_insertionSort scopeOrder).mpr
        (scopesSetNow_self_mem scopes scope now)
    cases hL : persistedScopes scopes scope now with
    | nil => rw [hL] at hmem; simp at hmem
    | cons hd tl =>
      rw [hL] at hmem hsorted
      have htail : ∀ x ∈ tl, scopeOrder hd x := (List.sorted_cons.mp hsorted).1
      have hhd : hd = (scope, now) := by
        have hhdmem : hd ∈ scopesSetNow scopes scope now := by
          have : hd ∈ persistedScopes scopes scope now := by
            rw [hL]; exact List.mem_cons_self _ _
          unfold persistedScopes sortScopesDesc at this
          exact (List.mem_insertionSort scopeOrder).mp this
        rcases mem_scopesSetNow hhdmem with h | h
        · exact h
        · exfalso
          have hlt' : hd.2 < now := hlt hd h
          rcases List.mem_cons.mp hmem with he | ht
          · rw [← he] at hlt'
            simp at hlt'
          · have hord : scopeOrder hd (scope, now) := htail _ ht
            unfold scopeOrder at hord
            omega
      rw [hhd]
      rfl

/-- C4 witness at a concrete history. -/
theorem c4_scope_persist_order_witness :
    (persistedScopes [("a", 1), ("b", 3)] "hoge" 7).Sorted scopeOrder ∧
    (persistedScopes [("a", 1), ("b", 3)] "hoge" 7).head? = some ("hoge", 7) := by
  have h := c4_scope_persist_order [("a", 1), ("b", 3)] "hoge" 7 (by decide)
  exact ⟨h.1, h.2 (by decide)⟩

/-- C1 counterexample, two parts.  First, for the syntactically invalid
header template consisting of an unclosed action, header generation FAILS:
`template.Must(template.New("").Parse(...))` panics before any fallback can
run, contradicting "header generation does not fail".  Second, when the
fallback does run (template parsed but execution failed), the header it
produces omits `emoji_unicode`: with `emoji_unicode = "S"` the result is
`"feat(ui): nice"`, not the claimed `"feat(ui): Snice"`. -/
theorem c1_counterexample :
    renderHeader "\x7b\x7b" "feat" "ui" "" "S" "nice" "" =
      Except.error "unclosed action" ∧
    renderHeader "\x7b\x7btemplate \"x\"\x7d\x7d" "feat" "ui" "" "S" "nice" "" =
      Except.ok ("feat(ui): nice",
        ["template x not defined: \x7b\x7btemplate \"x\"\x7d\x7d"]) ∧
    ("feat(ui): nice" : String) ≠ "feat(ui): Snice" := by
  exact ⟨rfl, rfl, by decide⟩

/-- C1 (amended): when the header template fails to PARSE, header generation
does not fall back — `template.Must` panics and the program dies with that
error.  When the template parses but EXECUTION fails, a diagnostic naming
the error and the template is emitted and the header is the partial output
of the failed execution followed by `type + scope_with_parens + bang +
": " + description` — `emoji_unicode` is not part of the fallback. -/
theorem c1_template_fallback (fmt typ scope emoji emojiUnicode desc bc :
    String) :
    (∀ e, parseTmpl fmt = Except.error e →
      renderHeader fmt typ scope emoji emojiUnicode desc bc =
        Except.error e) ∧
    (∀ items out e, parseTmpl fmt = Except.ok items →
      execTmpl (headerFieldsMap typ scope (scopeWithParensOf scope) (bangOf bc)
        emoji emojiUnicode desc) items = (out, some e) →
      renderHeader fmt typ scope emoji emojiUnicode desc bc =
        Except.ok (out ++ typ ++ scopeWithParensOf scope ++ bangOf bc ++
          ": " ++ desc, [e ++ ": " ++ fmt])) := by
  constructor
  · intro e hp
    simp [renderHeader, hp]
  · intro items out e hp hx
    simp [renderHeader, hp, hx]

/-- C1 witness: the parse-failure branch at the unclosed template `"\x7b\x7b"`
and the execution-failure branch at `"hello \x7b\x7btemplate \"x\"\x7d\x7d"`,
whose partial output `"hello "` precedes the fallback text. -/
theorem c1_template_fallback_witness :
    renderHeader "\x7b\x7b" "feat" "ui" "" "S" "d" "" =
      Except.error "unclosed action" ∧
    renderHeader "hello \x7b\x7btemplate \"x\"\x7d\x7d" "feat" "ui" "" "S" "d" "b" =
      Except.ok ("hello " ++ "feat" ++ scopeWithParensOf "ui" ++ bangOf "b" ++
        ": " ++ "d",
        ["template x not defined" ++ ": " ++
          "hello \x7b\x7btemplate \"x\"\x7d\x7d"]) := by
  exact ⟨(c1_template_fallback "\x7b\x7b" "feat" "ui" "" "S" "d" "").1
      "unclosed action" rfl,
    (c1_template_fallback "hello \x7b\x7btemplate \"x\"\x7d\x7d" "feat" "ui"
        "" "S" "d" "b").2
      [TmplItem.lit "hello ", TmplItem.tmplRef "x"] "hello "
      "template x not defined" rfl rfl⟩

/-- C2: the assembled final message equals the rendered header, followed by
`"\n\n" + body` exactly when the body is non-empty, followed by
`"\nBREAKING CHANGE: " + text` exactly when the (trimmed, solicited only
under `useBreakingChange`) breaking-change text is non-empty; and the
header's `bang` field renders as `"!"` exactly when that text is
non-empty. -/
theorem c2_message_assembly (rule : Rule) (emojize : String → String)
    (typ scope desc body bcRaw hdr : String) (diags : List String)
    (hhdr : renderHeader rule.headerFormat typ scope
      (emojiOf rule emojize typ false) (emojiOf rule emojize typ true) desc
      (promptBreakingChange rule.useBreakingChange bcRaw) =
        Except.ok (hdr, diags)) :
    assembleMessage rule emojize typ scope desc body bcRaw =
      Except.ok (hdr ++ (if body = "" then "" else "\n\n" ++ body) ++
        (if promptBreakingChange rule.useBreakingChange bcRaw = "" then ""
         else "\nBREAKING CHANGE: " ++
           promptBreakingChange rule.useBreakingChange bcRaw), diags) ∧
    (bangOf (promptBreakingChange rule.useBreakingChange bcRaw) = "!" ↔
      promptBreakingChange rule.useBreakingChange bcRaw ≠ "") := by
  constructor
  · rw [show assembleMessage rule emojize typ scope desc body bcRaw =
      (match renderHeader rule.headerFormat typ scope
          (emojiOf rule emojize typ false) (emojiOf rule emojize typ true)
          desc (promptBreakingChange rule.useBreakingChange bcRaw) with
        | Except.error e => Except.error e
        | Except.ok hd =>
          Except.ok ((if promptBreakingChange rule.useBreakingChange bcRaw ≠ ""
            then (if body ≠ "" then hd.1 ++ "\n\n" ++ body else hd.1) ++
              "\nBREAKING CHANGE: " ++
              promptBreakingChange rule.useBreakingChange bcRaw
            else (if body ≠ "" then hd.1 ++ "\n\n" ++ body else hd.1)),
            hd.2)) from rfl]
    rw [hhdr]
    by_cases hb : body = ""
    · by_cases hbc : promptBreakingChange rule.useBreakingChange bcRaw = ""
      · simp [hb, hbc]
      · simp [hb, hbc, String.append_assoc]
    · by_cases hbc : promptBreakingChange rule.useBreakingChange bcRaw = ""
      · simp [hb, hbc, String.append_assoc]
      · simp [hb, hbc, String.append_assoc]
  · by_cases hbc : promptBreakingChange rule.useBreakingChange bcRaw = ""
    · rw [hbc]
      constructor
      · intro h
        rw [show bangOf "" = "" from rfl] at h
        exact absurd h.symm (by decide)
      · intro h
        exact absurd rfl h
    · constructor
      · intro _
        exact hbc
      · intro _
        simp [bangOf, hbc]

set_option maxRecDepth 8192 in
/-- C2 witness: a concrete assembly with the built-in default rule. -/
theorem c2_message_assembly_witness :
    assembleMessage (defaultRule false) id "feat" "ui" "nice" "body text" " brk " =
      Except.ok ("feat(ui): nice" ++
        (if ("body text" : String) = "" then "" else "\n\n" ++ "body text") ++
        (if promptBreakingChange (defaultRule false).useBreakingChange " brk " = ""
         then ""
         else "\nBREAKING CHANGE: " ++
           promptBreakingChange (defaultRule false).useBreakingChange " brk "),
        []) ∧
    (bangOf (promptBreakingChange (defaultRule false).useBreakingChange " brk ") =
        "!" ↔
      promptBreakingChange (defaultRule false).useBreakingChange " brk " ≠ "") :=
  c2_message_assembly (defaultRule false) id "feat" "ui" "nice" "body text"
    " brk " "feat(ui): nice" [] rfl


/-- C5 counterexample: the scope history resolves at tier 2 (the repository
root, `"/repo/.scope-history.yaml"`) and is read successfully, yet the
recorded write-back file name is `""` (the code returns `exactPath`, the
gitconfig override, not the resolved path), so on the non-empty chosen scope
`"ui"` NO write-back happens — the claim demands a write back to the
resolved tier-2 location. -/
theorem c5_counterexample :
    finderFind scopesFsRootOnly envNoOverride defaultScopesFileName =
      some "/repo/.scope-history.yaml" ∧
    readScopesFile scopesFsRootOnly envNoOverride = (some [("ui", 5)], "") ∧
    writeBackTarget (readScopesFile scopesFsRootOnly envNoOverride).2 "ui" =
      none := by
  refine ⟨by rfl, by rfl, by rfl⟩

/-- C5 (amended): whenever the finder locates a readable scope-history file
— at whatever tier — the recorded write-back file name is the gitconfig
override path (`exactPath`); hence, for a non-empty chosen scope, the
history is written back exactly when that override is set, and then the
write target is the override path, not necessarily the location the history
was resolved from.  Resolutions at the repository root, the user config
directory or the executable directory without an override are never written
back. -/
theorem c5_writeback_target (fs : String → Option (MFile ScopesList))
    (env : FinderEnv) (path : String) (sc : Option ScopesList) (scope : String)
    (hfind : finderFind fs env defaultScopesFileName = some path)
    (hread : tryReadScopesFile fs path = Except.ok sc)
    (hscope : scope ≠ "") :
    (readScopesFile fs env).2 = env.exactPath ∧
    writeBackTarget (readScopesFile fs env).2 scope =
      (if env.exactPath = "" then none else some env.exactPath) := by
  have h2 : (readScopesFile fs env).2 = env.exactPath := by
    simp [readScopesFile, hfind, hread]
  refine ⟨h2, ?_⟩
  rw [h2]
  by_cases he : env.exactPath = ""
  · simp [writeBackTarget, he]
  · simp [writeBackTarget, he, hscope]


/-- C5 witness: with the override set, the write target is the override
path. -/
theorem c5_writeback_target_witness :
    (readScopesFile scopesFsOverride envOverride).2 = envOverride.exactPath ∧
    writeBackTarget (readScopesFile scopesFsOverride envOverride).2 "api" =
      (if envOverride.exactPath = "" then none
       else some envOverride.exactPath) :=
  c5_writeback_target scopesFsOverride envOverride "/repo/custom.yaml"
    (some [("api", 9)]) "api" (by rfl) (by rfl) (by decide)

/-- C8: the extension dispatch of both readers agrees with the spec rule
`decodeByExt` — a `.yaml`/`.yml` file (case-insensitively) is decoded only
as YAML, a `.json` file only as JSON, any other name is probed as YAML
first and JSON second, and the file is unreadable only when the selected
decoders fail; moreover when the finder located a rule file but reading it
failed, the outer `readRuleFile` falls back to the built-in default rule. -/
theorem c8_format_dispatch (rfs : String → Option (MFile Rule))
    (sfs : String → Option (MFile ScopesList)) (fn : String)
    (fr : MFile Rule) (fsc : MFile ScopesList) (env : FinderEnv)
    (hr : rfs fn = some fr) (hrd : fr.isDir = false)
    (hs : sfs fn = some fsc) (hsd : fsc.isDir = false) :
    (tryReadRuleFile rfs fn =
      match decodeByExt (goExt fn) fr.yaml fr.json with
      | some r => Except.ok (some r)
      | none => Except.error ()) ∧
    (tryReadScopesFile sfs fn =
      match decodeByExt (goExt fn) fsc.yaml fsc.json with
      | some sc => Except.ok (some sc)
      | none => Except.error ()) ∧
    (∀ path, finderFind rfs env defaultRuleFileName = some path →
      tryReadRuleFile rfs path = Except.error () →
      readRuleFile rfs env =
        (some (defaultRule false), fallbackPath env defaultRuleFileName)) := by
  refine ⟨?_, ?_, ?_⟩
  · rw [show tryReadRuleFile rfs fn =
      (if inFold (goExt fn) [".yaml", ".yml"] then
        match fr.yaml with
        | some r => Except.ok (some r)
        | none => Except.error ()
      else if inFold (goExt fn) [".json"] then
        match fr.json with
        | some r => Except.ok (some r)
        | none => Except.error ()
      else
        match fr.yaml with
        | some r => Except.ok (some r)
        | none =>
          match fr.json with
          | some r => Except.ok (some r)
          | none => Except.error ()) by
      simp [tryReadRuleFile, hr, hrd]]
    by_cases h1 : inFold (goExt fn) [".yaml", ".yml"] = true
    · simp [decodeByExt, h1]
    · by_cases h2 : inFold (goExt fn) [".json"] = true
      · simp [decodeByExt, h1, h2]
      · cases hy : fr.yaml with
        | some r => simp [decodeByExt, h1, h2, hy]
        | none =>
          cases hj : fr.json with
          | some r => simp [decodeByExt, h1, h2, hy, hj]
          | none => simp [decodeByExt, h1, h2, hy, hj]
  · rw [show tryReadScopesFile sfs fn =
      (if inFold (goExt fn) [".yaml", ".yml"] then
        match fsc.yaml with
        | some sc => Except.ok (some sc)
        | none => Except.error ()
      else if inFold (goExt fn) [".json"] then
        match fsc.json with
        | some sc => Except.ok (some sc)
        | none => Except.error ()
      else
        match fsc.yaml with
        | some sc => Except.ok (some sc)
        | none =>
          match fsc.json with
          | some sc => Except.ok (some sc)
          | none => Except.error ()) by
      simp [tryReadScopesFile, hs, hsd]]
    by_cases h1 : inFold (goExt fn) [".yaml", ".yml"] = true
    · simp [decodeByExt, h1]
    · by_cases h2 : inFold (goExt fn) [".json"] = true
      · simp [decodeByExt, h1, h2]
      · cases hy : fsc.yaml with
        | some sc => simp [decodeByExt, h1, h2, hy]
        | none =>
          cases hj : fsc.json with
          | some sc => simp [decodeByExt, h1, h2, hy, hj]
          | none => simp [decodeByExt, h1, h2, hy, hj]
  · intro path hfind hfail
    simp [readRuleFile, hfind, hfail]


/-- C8 witness: dispatch at the concrete path `"/repo/.cx.yaml"` (extension
`.yaml`, so only the YAML decode result counts, even though the JSON oracle
would succeed for the scopes file), and the default-rule fallback when the
found rule file is unreadable. -/
theorem c8_format_dispatch_witness :
    (tryReadRuleFile rulesFsRoot "/repo/.cx.yaml" =
      match decodeByExt (goExt "/repo/.cx.yaml") (some (defaultRule true)) none with
      | some r => Except.ok (some r)
      | none => Except.error ()) ∧
    (tryReadScopesFile scopesFsJson "/repo/.cx.yaml" =
      match decodeByExt (goExt "/repo/.cx.yaml") (some [("db", 2)])
          (some [("db", 3)]) with
      | some sc => Except.ok (some sc)
      | none => Except.error ()) ∧
    readRuleFile rulesFsBroken envNoOverride =
      (some (defaultRule false), fallbackPath envNoOverride defaultRuleFileName) := by
  have h := c8_format_dispatch rulesFsRoot scopesFsJson "/repo/.cx.yaml"
    ⟨false, some (defaultRule true), none⟩ ⟨false, some [("db", 2)], some [("db", 3)]⟩
    envNoOverride rfl rfl rfl rfl
  have h2 := c8_format_dispatch rulesFsBroken scopesFsJson "/repo/.cx.yaml"
    ⟨false, none, none⟩ ⟨false, some [("db", 2)], some [("db", 3)]⟩
    envNoOverride rfl rfl rfl rfl
  exact ⟨h.1, h.2.1, h2.2.2 "/repo/.cx.yaml" (by rfl) (by rfl)⟩

/-- C10: with `denyAdlibType` set, any non-empty registry key that is hidden
from the suggestion list — a `#`-prefixed comment key or a key whose
description is empty — is nonetheless accepted verbatim by the validation
loop: the accepted set is the registry's (non-empty) key set, a strict
superset of the suggested set. -/
theorem c10_hidden_keys_accepted (rule : Rule) (emojize : String → String)
    (k : String) (ct : CommitType)
    (hdeny : rule.denyAdlibType = true)
    (hget : omGet rule.types k = some ct)
    (hk : k ≠ "")
    (hhidden : goStartsWith k "#" = true ∨ ct.desc = "") :
    ¬ k ∈ (suggestionItems rule emojize).map Suggest.text ∧
    promptTypeLoop rule [k] = some k := by
  constructor
  · intro hmem
    rcases List.mem_map.mp hmem with ⟨s, hs, hst⟩
    rcases List.mem_filterMap.mp hs with ⟨k', _, hfk'⟩
    have hk'text : s.text = k' := by
      by_cases hp : goStartsWith k' "#" = true
      · simp [hp] at hfk'
      · cases hoc : omGet rule.types k' with
        | none => simp [hp, hoc] at hfk'
        | some ct' =>
          by_cases hde : ct'.desc = ""
          · simp [hp, hoc, hde] at hfk'
          · simp [hp, hoc, hde] at hfk'
            rw [← hfk']
    have hkk' : k' = k := by rw [← hk'text, hst]
    subst hkk'
    by_cases hp : goStartsWith k' "#" = true
    · simp [hp] at hfk'
    · rw [hget] at hfk'
      rcases hhidden with hh | hh
      · exact hp hh
      · simp [hp, hh] at hfk'
  · have hns : (omGet rule.types k).isNone = false := by simp [hget]
    simp [promptTypeLoop, hk, hns]

/-- C10 witness: under the default registry with `denyAdlibType` enabled,
the comment key `"# comment1"` is not suggested but is accepted. -/
theorem c10_hidden_keys_accepted_witness :
    ¬ "# comment1" ∈ (suggestionItems
      { defaultRule false with denyAdlibType := true } id).map Suggest.text ∧
    promptTypeLoop { defaultRule false with denyAdlibType := true }
      ["# comment1"] = some "# comment1" :=
  c10_hidden_keys_accepted { defaultRule false with denyAdlibType := true } id
    "# comment1" ⟨"comment starts with #", ""⟩ rfl rfl (by decide)
    (Or.inl rfl)

end GitCx
